import Mathlib

/-!
Shallow embedding of `view.js` (foliate-js): the navigation history,
location resolution, overlay registry, media-overlay split detection and
flip scheduling of the `View` custom element.  Definitions are translated
from the source; external collaborators (the renderer, the CFI parser,
the book's resolvers, the `Overlayer` drawing primitive, the audio
element) are abstracted as parameters or explicit state.  JavaScript
numbers are modelled as exact rationals.
-/

/-- A JavaScript value as used for navigation targets and history entries
in `view.js`: a number, a string, or an object (identified by an
allocation id, since `===` on objects is identity) optionally carrying a
numeric `fraction` property. -/
inductive JsVal where
  | num (q : ℚ)
  | str (s : String)
  | obj (id : ℕ) (fraction : Option ℚ)
deriving DecidableEq

/-- JavaScript strict equality `===` on the values above: value equality
for numbers and strings, identity for objects, `false` across kinds. -/
def jsEq : JsVal → JsVal → Bool
  | .num a, .num b => decide (a = b)
  | .str a, .str b => decide (a = b)
  | .obj i _, .obj j _ => decide (i = j)
  | _, _ => false

/-- Reading the `fraction` property of a value: `undefined` (`none`) on
numbers and strings. -/
def fracOf : JsVal → Option ℚ
  | .obj _ f => f
  | _ => none

/-- State of the `History` class (view.js 157-197): the backing array,
the current pointer `#index` (−1 when empty), and the value stored under
the array's "-1" property when `replaceState` runs on an empty history
(the JS assignment `arr[-1] = x` sets a non-index property that a later
read of `arr[-1]` observes but that never counts towards `length`). -/
structure HState where
  arr : List JsVal
  index : ℤ
  negOne : Option JsVal
deriving DecidableEq

/-- Reading `#arr[i]` for the pointer values the class produces. -/
def getAt (h : HState) (i : ℤ) : Option JsVal :=
  if i = -1 then h.negOne
  else if 0 ≤ i then h.arr.get? i.toNat else none

/-- The coalescing guard of `History.pushState` (view.js 161-162):
`last === x || last?.fraction && last.fraction === x.fraction`.
A fraction equal to 0 is falsy in JS, so the second disjunct fires only
for a nonzero fraction on the current entry. -/
def coalesceCheck (last : Option JsVal) (x : JsVal) : Bool :=
  match last with
  | none => false
  | some l =>
    jsEq l x ||
      (match fracOf l with
       | some f =>
         decide (f ≠ 0) &&
           (match fracOf x with
            | some g => decide (f = g)
            | none => false)
       | none => false)

/-- `History.pushState` (view.js 160-166): coalesce, else write `x` at
`++#index` and truncate the array to `#index + 1` entries.  The
take-append form agrees with the JS assignment whenever
`#index < #arr.length` (always the case: the pointer invariant holds for
every state the class produces). -/
def pushStateH (h : HState) (x : JsVal) : HState :=
  if coalesceCheck (getAt h h.index) x then h
  else
    { arr := h.arr.take (h.index + 1).toNat ++ [x]
      index := h.index + 1
      negOne := h.negOne }

/-- `History.replaceState` (view.js 167-170): overwrite the entry at the
pointer without moving it.  On an empty history (`#index = -1`) the JS
assignment writes the array's "-1" property; `List.set` agrees with the
JS assignment on every in-bounds pointer, and the pointer invariant rules
out any other. -/
def replaceStateH (h : HState) (x : JsVal) : HState :=
  if h.index = -1 then { h with negOne := some x }
  else { h with arr := h.arr.set h.index.toNat x }

/-- `History.back` (view.js 171-178): move the pointer down when above 0. -/
def backH (h : HState) : HState :=
  if h.index ≤ 0 then h else { h with index := h.index - 1 }

/-- `History.forward` (view.js 179-186): move the pointer up when below
the last index. -/
def forwardH (h : HState) : HState :=
  if (h.arr.length : ℤ) - 1 ≤ h.index then h else { h with index := h.index + 1 }

/-- `History.clear` (view.js 193-196): fresh array, pointer −1. -/
def clearH : HState := { arr := [], index := -1, negOne := none }

/-- The pointer invariant of the History stack: −1 (empty) or a valid
array index. -/
def HInv (h : HState) : Prop :=
  h.index = -1 ∨ (0 ≤ h.index ∧ h.index < h.arr.length)

instance (h : HState) : Decidable (HInv h) := by unfold HInv; infer_instance

/-- C7: every History operation preserves the pointer invariant, and a
non-coalesced push leaves the pointer at the last index of the array with
everything beyond the old pointer truncated (also when pushing after
`back()`). -/
theorem history_ops_preserve_invariant (h : HState) (x : JsVal) (hI : HInv h) :
    HInv (pushStateH h x) ∧ HInv (replaceStateH h x) ∧ HInv (backH h) ∧
      HInv (forwardH h) ∧ HInv clearH ∧
      (coalesceCheck (getAt h h.index) x = false →
        (pushStateH h x).index = ((pushStateH h x).arr.length : ℤ) - 1 ∧
          (pushStateH h x).arr = h.arr.take (h.index + 1).toNat ++ [x]) := by
  have hlen : ∀ n : ℕ, (h.arr.take n ++ [x]).length = min n h.arr.length + 1 := by
    intro n
    simp [List.length_take]
  refine ⟨?_, ?_, ?_, ?_, Or.inl rfl, ?_⟩
  · unfold pushStateH
    by_cases hc : coalesceCheck (getAt h h.index) x = true
    · rw [if_pos hc]; exact hI
    · rw [if_neg (by simpa using hc)]
      unfold HInv at hI ⊢
      dsimp only
      rw [hlen]
      rcases hI with h1 | ⟨h1, h2⟩ <;> (right; constructor <;> omega)
  · unfold replaceStateH
    by_cases hc : h.index = -1
    · rw [if_pos hc]
      unfold HInv at hI ⊢
      exact hI
    · rw [if_neg hc]
      unfold HInv at hI ⊢
      dsimp only
      rw [List.length_set]
      exact hI
  · unfold backH
    by_cases hc : h.index ≤ 0
    · rw [if_pos hc]; exact hI
    · rw [if_neg hc]
      unfold HInv at hI ⊢
      dsimp only
      rcases hI with h1 | ⟨h1, h2⟩ <;> omega
  · unfold forwardH
    by_cases hc : (h.arr.length : ℤ) - 1 ≤ h.index
    · rw [if_pos hc]; exact hI
    · rw [if_neg hc]
      unfold HInv at hI ⊢
      dsimp only
      rcases hI with h1 | ⟨h1, h2⟩ <;> (right; constructor <;> omega)
  · intro hc
    unfold pushStateH
    rw [if_neg (by simp [hc])]
    refine ⟨?_, rfl⟩
    dsimp only
    rw [hlen]
    unfold HInv at hI
    rcases hI with h1 | ⟨h1, h2⟩ <;> omega

/-- Witness for C7 at a concrete history and entry. -/
theorem history_ops_preserve_invariant_witness :
    HInv clearH ∧ HInv (pushStateH clearH (.num 1)) :=
  ⟨by decide, (history_ops_preserve_invariant clearH (.num 1) (by decide)).1⟩

/-- C5 counterexample: two distinct fraction-wrapped entries whose
fractions are numerically equal but zero are NOT coalesced — `0` is
falsy, so `last?.fraction` short-circuits and the push goes through,
growing the array and moving the pointer. -/
theorem pushState_zero_fraction_cex :
    fracOf (JsVal.obj 0 (some 0)) = some 0 ∧
    fracOf (JsVal.obj 1 (some 0)) = some 0 ∧
    (pushStateH clearH (.obj 0 (some 0))).arr.length = 1 ∧
    (pushStateH (pushStateH clearH (.obj 0 (some 0))) (.obj 1 (some 0))).arr.length = 2 ∧
    (pushStateH (pushStateH clearH (.obj 0 (some 0))) (.obj 1 (some 0))).index ≠
      (pushStateH clearH (.obj 0 (some 0))).index := by decide

/-- C5 amended: `pushState(x)` is a no-op when the entry at the current
pointer is strictly equal to `x`, or when both are fraction-wrapped with
numerically equal *truthy* (nonzero) fractions. -/
theorem pushState_coalesce_noop (h : HState) (x l : JsVal)
    (hl : getAt h h.index = some l)
    (hc : jsEq l x = true ∨ ∃ f, fracOf l = some f ∧ f ≠ 0 ∧ fracOf x = some f) :
    pushStateH h x = h := by
  have hco : coalesceCheck (getAt h h.index) x = true := by
    rw [hl]
    unfold coalesceCheck
    rcases hc with hc | ⟨f, hf, hf0, hg⟩
    · simp [hc]
    · simp [hf, hg, hf0]
  unfold pushStateH
  simp [hco]

/-- Witness for C5 amended: pushing the same nonzero fraction twice (as
distinct objects) leaves the history unchanged after the first push. -/
theorem pushState_coalesce_noop_witness :
    pushStateH (pushStateH clearH (.obj 0 (some 1))) (.obj 1 (some 1)) =
      pushStateH clearH (.obj 0 (some 1)) :=
  pushState_coalesce_noop (pushStateH clearH (.obj 0 (some 1)))
    (.obj 1 (some 1)) (.obj 0 (some 1)) (by decide)
    (Or.inr ⟨1, by decide, by decide, by decide⟩)

/-- A resolved navigation target `{index, anchor}` (spec: ResolvedTarget).
The anchor is a deferred external closure; it is modelled by an opaque
handle. `{ index: target }` carries no anchor property. -/
structure Resolved where
  index : ℚ
  anchor : Option ℕ
deriving DecidableEq

/-- The external collaborators a `View` holds when resolving and
annotating: `#sectionProgress` (present only when the book exposes
`splitTOCHref`/`getTOCFragment`, view.js 238-249), `CFI.isCFI.test`,
`book.resolveCFI` (optional), the generic CFI parser of
`View.resolveCFI`'s else-branch, `book.resolveHref`, and
`#tocProgress.getProgress` (again only with the TOC capability; the
function returns the descriptor's label). Fallible externals are
`Except`, an error being a thrown exception. -/
structure ViewCtx where
  nSections : ℕ
  hasSectionProgress : Bool
  getSection : ℚ → Except Unit Resolved
  isCFI : JsVal → Bool
  bookResolveCFI : Option (String → Except Unit Resolved)
  fakeResolveCFI : String → Except Unit Resolved
  resolveHref : JsVal → Except Unit Resolved
  tocProgress : Option (ℚ → Option String)

/-- A caught exception: `Except.error` becomes `undefined`. -/
def exceptToOption {α : Type} : Except Unit α → Option α
  | .ok a => some a
  | .error _ => none

/-- `View.resolveCFI` (view.js 675-684): prefer the book's own resolver,
else the generic CFI parse (external, abstracted). -/
def resolveCFIV (ctx : ViewCtx) (s : String) : Except Unit Resolved :=
  match ctx.bookResolveCFI with
  | some f => f s
  | none => ctx.fakeResolveCFI s

/-- `View.resolveNavigation` (view.js 685-698).  A number returns
`{index: target}` unconditionally; a value with a numeric `fraction`
uses `#sectionProgress.getSection` (throws when the book has no section
progress — reading `.getSection` of `undefined`); a CFI string goes
through `resolveCFI`; anything else through `book.resolveHref`.  The
whole body is inside `try`/`catch`: an exception is logged and the
function returns `undefined` (`none`).  `CFI.isCFI.test` coerces a
non-string argument to the string "[object Object]". -/
def resolveNavigation (ctx : ViewCtx) (target : JsVal) : Option Resolved :=
  match target with
  | .num n => some { index := n, anchor := none }
  | .obj _ (some f) =>
    if ctx.hasSectionProgress then exceptToOption (ctx.getSection f) else none
  | .str s =>
    if ctx.isCFI target then exceptToOption (resolveCFIV ctx s)
    else exceptToOption (ctx.resolveHref target)
  | .obj _ none =>
    if ctx.isCFI target then exceptToOption (resolveCFIV ctx "[object Object]")
    else exceptToOption (ctx.resolveHref target)

/-- A number names a valid section position: a nonnegative integer below
the section count. -/
def validIndex (ctx : ViewCtx) (q : ℚ) : Prop :=
  q.den = 1 ∧ 0 ≤ q.num ∧ q.num < ctx.nSections

instance (ctx : ViewCtx) (q : ℚ) : Decidable (validIndex ctx q) := by
  unfold validIndex; infer_instance

/-- A concrete book context with a single section and no optional
capabilities. -/
def ctxOneSection : ViewCtx :=
  { nSections := 1
    hasSectionProgress := false
    getSection := fun _ => .error ()
    isCFI := fun _ => false
    bookResolveCFI := none
    fakeResolveCFI := fun _ => .error ()
    resolveHref := fun _ => .error ()
    tocProgress := none }

/-- C4 counterexample: on a book with one section, index 5 is not a valid
section index, yet `resolveNavigation(5)` returns `{index: 5}` rather
than yielding "unresolved" — the number branch never checks validity. -/
theorem resolveNavigation_invalid_index_cex :
    resolveNavigation ctxOneSection (.num 5) = some { index := 5, anchor := none } ∧
      ¬ validIndex ctxOneSection 5 := by
  exact ⟨rfl, by decide⟩

/-- C4 amended: for every number `n`, valid or not, `resolveNavigation`
returns `{index: n}` with no anchor; validity of the index is never
checked (exceptions in the other branches are caught and yield
"unresolved", but the number branch cannot throw). -/
theorem resolveNavigation_number_always_index (ctx : ViewCtx) (n : ℚ) :
    resolveNavigation ctx (.num n) = some { index := n, anchor := none } := rfl

/-- `View.goTo` (view.js 699-709): resolve outside the `try` (resolution
itself never throws), then await the renderer's `goTo` and only on its
success push the raw target onto the history; a rejection is caught and
logged, leaving the history untouched and returning `undefined`. -/
def goToV (ctx : ViewCtx) (rendererGoTo : Option Resolved → Except Unit Unit)
    (h : HState) (target : JsVal) : Option Resolved × HState :=
  match rendererGoTo (resolveNavigation ctx target) with
  | .ok _ => (resolveNavigation ctx target, pushStateH h target)
  | .error _ => (none, h)

/-- C6: when the renderer rejects the `goTo`, the history (array and
pointer alike) is unchanged and no exception reaches the caller; the
push happens only after the navigation resolves successfully. -/
theorem goTo_reject_preserves_history (ctx : ViewCtx)
    (rendererGoTo : Option Resolved → Except Unit Unit) (h : HState) (target : JsVal) :
    (rendererGoTo (resolveNavigation ctx target) = .error () →
      goToV ctx rendererGoTo h target = (none, h)) ∧
      (rendererGoTo (resolveNavigation ctx target) = .ok () →
        (goToV ctx rendererGoTo h target).2 = pushStateH h target) := by
  constructor <;> intro hr <;> simp [goToV, hr]

/-- Witness for C6 at a rejecting renderer and at an accepting one. -/
theorem goTo_reject_preserves_history_witness :
    goToV ctxOneSection (fun _ => .error ()) clearH (.num 0) = (none, clearH) ∧
      (goToV ctxOneSection (fun _ => .ok ()) clearH (.num 0)).2 =
        pushStateH clearH (.num 0) :=
  ⟨(goTo_reject_preserves_history ctxOneSection (fun _ => .error ()) clearH (.num 0)).1 rfl,
    (goTo_reject_preserves_history ctxOneSection (fun _ => .ok ()) clearH (.num 0)).2 rfl⟩

/-- A media-overlay item: `begin`/`end` times in seconds, both read with
`?? 0` by the highlight handler. -/
structure MOItem where
  begin : Option ℚ
  endTime : Option ℚ
deriving DecidableEq

/-- `const earlyOffset = 1.0` (view.js 485). -/
def earlyOffset : ℚ := 1

/-- `const duration = (currentItem.end ?? 0) - (currentItem.begin ?? 0)`
(view.js 476). -/
def itemDuration (it : MOItem) : ℚ := it.endTime.getD 0 - it.begin.getD 0

/-- The scheduled flip time (view.js 486-489):
`Math.max(begin ?? 0, (begin ?? 0) + duration * visibleRatio - earlyOffset)`. -/
def flipTimeOf (it : MOItem) (visibleRatio : ℚ) : ℚ :=
  max (it.begin.getD 0) (it.begin.getD 0 + itemDuration it * visibleRatio - earlyOffset)

/-- C2 counterexample: at `begin = 2306.625`, `end = 2315.691`,
`visibleRatio = 0.25` the code computes
`max(2306.625, 2306.625 + 9.066 × 0.25 − 1.0) = 2307.8915`, not the
claimed `2308.89` (the `− 1.0` early offset makes the claimed value
arithmetically impossible). -/
theorem flipTime_example_cex :
    flipTimeOf { begin := some (2306625/1000), endTime := some (2315691/1000) } (1/4) ≠
      230889/100 := by
  norm_num [flipTimeOf, itemDuration, earlyOffset]

/-- C2 amended: the flip is scheduled at
`max(begin, begin + (end − begin) × visibleRatio − 1.0)`; for
`begin = 2306.625`, `end = 2315.691`, `visibleRatio = 0.25` this equals
`2307.8915` seconds. -/
theorem flipTime_formula :
    (∀ b e v : ℚ, flipTimeOf { begin := some b, endTime := some e } v =
        max b (b + (e - b) * v - 1)) ∧
      flipTimeOf { begin := some (2306625/1000), endTime := some (2315691/1000) } (1/4) =
        23078915/10000 := by
  constructor
  · intro b e v
    simp [flipTimeOf, itemDuration, earlyOffset]
  · norm_num [flipTimeOf, itemDuration, earlyOffset]

/-- The page-flip listener state of an open `View` with a media overlay
(view.js 267-534) together with the fields `close()` resets.  A handler
is an opaque id; `audioListeners` are the `timeupdate` listeners
currently registered on `mediaOverlay.audio`. -/
structure FlipState where
  pageFlipHandler : Option ℕ
  audioListeners : List ℕ
  hasMediaOverlay : Bool
  hasAudio : Bool
  history : HState
  searchResults : List (List String)
deriving DecidableEq

/-- `cleanupPageFlipHandler` (view.js 279-284): when a handler is armed,
remove it from the audio element's `timeupdate` listeners (if there is an
audio element) and null the handler. -/
def cleanupPageFlipHandler (st : FlipState) : FlipState :=
  match st.pageFlipHandler with
  | none => st
  | some hid =>
    { st with
      audioListeners :=
        if st.hasAudio then st.audioListeners.filter (fun x => decide (x ≠ hid))
        else st.audioListeners
      pageFlipHandler := none }

/-- Arming a flip (view.js 493-503): store the closure in
`pageFlipTimeupdateHandler` and register it on the audio element. -/
def armPageFlip (st : FlipState) (hid : ℕ) : FlipState :=
  { st with
    pageFlipHandler := some hid
    audioListeners := st.audioListeners ++ [hid] }

/-- `View.close` (view.js 536-547): destroy the renderer, reset the
progress trackers and search results, clear the history, and null
`tts`/`mediaOverlay`.  It never touches `pageFlipTimeupdateHandler` and
never removes the `timeupdate` listener from the audio element. -/
def closeView (st : FlipState) : FlipState :=
  { st with
    history := clearH
    searchResults := []
    hasMediaOverlay := false }

/-- A freshly opened view with a media overlay and audio, nothing armed. -/
def initFlipState : FlipState :=
  { pageFlipHandler := none
    audioListeners := []
    hasMediaOverlay := true
    hasAudio := true
    history := clearH
    searchResults := [] }

/-- C3: after `close()` on a view whose page flip is armed, the
`timeupdate` listener is still registered on the audio element and the
handler is still set — `close` clears history and search state but never
calls `cleanupPageFlipHandler`, so the armed listener survives the close
(running the cleanup instead would have removed it). -/
theorem closeView_dangling_flip_listener :
    (closeView (armPageFlip initFlipState 0)).audioListeners = [0] ∧
      (closeView (armPageFlip initFlipState 0)).pageFlipHandler = some 0 ∧
      (cleanupPageFlipHandler (armPageFlip initFlipState 0)).audioListeners = [] := by
  decide

/-- A content entry of `renderer.getContents()`: its section index and an
opaque handle for its document. -/
structure Content where
  index : ℚ
  docId : ℕ
deriving DecidableEq

/-- The lookup `this.renderer.getContents().find(x => x.index = resolved.index)`
(view.js 454-455 and 470-471).  The predicate body is an assignment, not a
comparison: it evaluates to `resolved.index` for every entry, so `find`
tests the truthiness of that number — truthy (nonzero) for all entries or
falsy (zero) for all — and never consults an entry's own index. -/
def findByAssignedIndex (contents : List Content) (i : ℚ) : Option Content :=
  contents.find? (fun _ => decide (¬ i = 0))

/-- C10 counterexample: with resolved index 0 the assigned value is falsy
for every entry, so the lookup selects nothing at all — not the first
entry — even though an entry with the matching index (the first) exists. -/
theorem contents_find_assign_zero_cex :
    findByAssignedIndex [⟨0, 0⟩, ⟨1, 1⟩] 0 = none ∧
      ([⟨0, 0⟩, ⟨1, 1⟩] : List Content).head? = some ⟨0, 0⟩ ∧
      (∃ c ∈ ([⟨0, 0⟩, ⟨1, 1⟩] : List Content), c.index = 0) := by
  refine ⟨rfl, rfl, ⟨⟨0, 0⟩, by simp, rfl⟩⟩

/-- C10 amended: the assigning `find` selects the first content entry
whenever the resolved index is nonzero (truthy), regardless of any
entry's own index; when the resolved index is 0 it selects nothing
(`undefined`, and the subsequent destructuring throws). -/
theorem contents_find_assign_first (contents : List Content) (i : ℚ) :
    (i ≠ 0 → findByAssignedIndex contents i = contents.head?) ∧
      (i = 0 → findByAssignedIndex contents i = none) := by
  constructor
  · intro hi
    cases contents with
    | nil => rfl
    | cons c rest => simp [findByAssignedIndex, hi]
  · intro hi
    subst hi
    induction contents with
    | nil => rfl
    | cons c rest ih => simp [findByAssignedIndex]

/-- Witness for C10 amended at a nonzero resolved index and entries whose
own indices differ from it. -/
theorem contents_find_assign_first_witness :
    findByAssignedIndex [⟨5, 0⟩, ⟨7, 1⟩] 2 = some ⟨5, 0⟩ :=
  ((contents_find_assign_first [⟨5, 0⟩, ⟨7, 1⟩] 2).1 (by norm_num)).trans rfl

/-- `const SEARCH_PREFIX = 'foliate-search:'` (view.js 6). -/
def SEARCH_PREFIX : String := "foliate-search:"

/-- JS `String.prototype.startsWith`, structurally on the character
lists. -/
def jsStartsWith (s p : String) : Bool := p.data.isPrefixOf s.data

/-- `value.replace(SEARCH_PREFIX, '')` (view.js 610), called only on
values that start with the prefix, where replacing the first occurrence
equals dropping it. -/
def stripSearch (v : String) : String := v.drop SEARCH_PREFIX.length

/-- A live content entry with an overlayer: its section index and the
values currently drawn on its overlayer.  The `Overlayer` keeps one
drawn entry per value (a mapping keyed by the opaque value). -/
structure OverlaySt where
  index : ℚ
  drawn : List String
deriving DecidableEq

/-- The overlay-relevant state of a `View`: the live overlays of
`renderer.getContents()` and the stored `#searchResults` lists (the map
keys never matter to `clearSearch`, which iterates `values()`). -/
structure AnnState where
  overlays : List OverlaySt
  searchResults : List (List String)
deriving DecidableEq

/-- `View.#getOverlayer` (view.js 641-644): the first content entry whose
index matches and that has an overlayer (all entries modelled here have
one). -/
def getOverlayer (ovs : List OverlaySt) (i : ℚ) : Option OverlaySt :=
  ovs.find? (fun ov => decide (ov.index = i))

/-- Modelled from the spec: `Overlayer.remove` lives in overlayer.js,
which is not part of this source tree.  Spec §4.4/§5: the overlay is a
mapping keyed by the annotation value, so removal deletes the entry for
that exact value. -/
def overlayerRemove (drawn : List String) (v : String) : List String :=
  drawn.filter (fun x => decide (x ≠ v))

/-- Modelled from the spec: `Overlayer.add` lives in overlayer.js, which
is not part of this source tree.  Spec §4.4/§5: mutations are
last-writer-wins per value key. -/
def overlayerAdd (drawn : List String) (v : String) : List String :=
  drawn.filter (fun x => decide (x ≠ v)) ++ [v]

/-- Mutating the overlayer object returned by `#getOverlayer`: the first
entry with the given index is updated in place. -/
def updateFirstOverlay : List OverlaySt → ℚ → (List String → List String) → List OverlaySt
  | [], _, _ => []
  | ov :: rest, i, f =>
    if ov.index = i then { ov with drawn := f ov.drawn } :: rest
    else ov :: updateFirstOverlay rest i f

/-- `View.addAnnotation(annotation, remove)` (view.js 607-637), as a
state transformer on the overlay state; `.error` is a thrown exception
(the `async` function rejecting).  Search-prefixed values: resolve the
inner CFI (destructuring `undefined` throws), no-op when the owning
section's overlay is not live, else remove or add (fixed outline style)
and return nothing.  Other values: resolve, remove any prior entry when
live (for `remove = false` the redraw is delegated to the shell via the
`draw-annotation` event, which is external and not modelled), then read
the label from `this.#tocProgress.getProgress(index)?.label ?? ''` —
written without optional chaining on `#tocProgress` itself, so a book
without the TOC capability makes this line throw — and return
`{index, label}`. -/
def addAnnotationE (ctx : ViewCtx) (st : AnnState) (value : String) (remove : Bool) :
    Except Unit (AnnState × Option (ℚ × String)) :=
  if jsStartsWith value SEARCH_PREFIX then
    match resolveNavigation ctx (.str (stripSearch value)) with
    | none => .error ()
    | some r =>
      match getOverlayer st.overlays r.index with
      | none => .ok (st, none)
      | some _ =>
        if remove then
          .ok ({ st with overlays :=
            updateFirstOverlay st.overlays r.index (fun d => overlayerRemove d value) }, none)
        else
          .ok ({ st with overlays :=
            updateFirstOverlay st.overlays r.index (fun d => overlayerAdd d value) }, none)
  else
    match resolveNavigation ctx (.str value) with
    | none => .error ()
    | some r =>
      let st1 : AnnState :=
        match getOverlayer st.overlays r.index with
        | none => st
        | some _ =>
          { st with overlays :=
              updateFirstOverlay st.overlays r.index (fun d => overlayerRemove d value) }
      match ctx.tocProgress with
      | none => .error ()
      | some gp => .ok (st1, some (r.index, (gp r.index).getD ""))

/-- One `this.deleteAnnotation(item)` call of `clearSearch` (view.js
821-822): the promise is not awaited, so a rejection (which in the
search branch can only happen before any state change) leaves the state
as it was and the loop continues. -/
def applyDelete (ctx : ViewCtx) (st : AnnState) (v : String) : AnnState :=
  match addAnnotationE ctx st v true with
  | .ok (s, _) => s
  | .error _ => st

/-- `View.clearSearch` (view.js 820-824): delete every stored search
item, then clear the `#searchResults` map. -/
def clearSearchV (ctx : ViewCtx) (st : AnnState) : AnnState :=
  let st1 := st.searchResults.foldl (fun s l => l.foldl (applyDelete ctx) s) st
  { st1 with searchResults := [] }

/-- The prelude of `View.search` (view.js 785-796): `this.clearSearch()`
first, then a fresh empty result list is stored for the searched index. -/
def searchStart (ctx : ViewCtx) (st : AnnState) : AnnState :=
  { clearSearchV ctx st with searchResults := [[]] }

/-- A stored search value `v` hits the overlay at index `i`: it is
search-prefixed and its inner CFI resolves back to `i`. -/
def delHit (ctx : ViewCtx) (i : ℚ) (v : String) : Bool :=
  jsStartsWith v SEARCH_PREFIX &&
    match resolveNavigation ctx (.str (stripSearch v)) with
    | some r => decide (r.index = i)
    | none => false

/-- A drawn value `x` at index `i` is deleted by some value of `L`. -/
def hitBy (ctx : ViewCtx) (L : List String) (i : ℚ) (x : String) : Bool :=
  L.any (fun v => decide (x = v) && delHit ctx i v)

/-- Updating the first overlay with a given index does not change the
indices. -/
theorem updateFirstOverlay_map_index (ovs : List OverlaySt) (i : ℚ)
    (f : List String → List String) :
    (updateFirstOverlay ovs i f).map OverlaySt.index = ovs.map OverlaySt.index := by
  induction ovs with
  | nil => rfl
  | cons ov rest ih =>
    by_cases h : ov.index = i <;> simp [updateFirstOverlay, h, ih]

/-- With pairwise-distinct indices, updating the first matching overlay
equals updating every matching one. -/
theorem updateFirstOverlay_eq_map (ovs : List OverlaySt) (i : ℚ)
    (f : List String → List String) (hnd : (ovs.map OverlaySt.index).Nodup) :
    updateFirstOverlay ovs i f =
      ovs.map (fun ov => if ov.index = i then { ov with drawn := f ov.drawn } else ov) := by
  induction ovs with
  | nil => rfl
  | cons ov rest ih =>
    rw [List.map_cons, List.nodup_cons] at hnd
    by_cases h : ov.index = i
    · simp only [updateFirstOverlay, if_pos h, List.map_cons]
      congr 1
      symm
      refine (List.map_congr_left ?_).trans (List.map_id _)
      intro o ho
      have hne : o.index ≠ i := by
        intro he
        apply hnd.1
        have hmem : o.index ∈ rest.map OverlaySt.index := List.mem_map_of_mem _ ho
        rwa [he, ← h] at hmem
      simp [hne]
    · simp only [updateFirstOverlay, if_neg h, List.map_cons, ih hnd.2]

/-- The overlay-state effect of one unawaited `deleteAnnotation` on a
search-prefixed value, as a pointwise filter. -/
theorem applyDelete_step (ctx : ViewCtx) (st : AnnState) (v : String)
    (hpre : jsStartsWith v SEARCH_PREFIX = true)
    (hnd : (st.overlays.map OverlaySt.index).Nodup) :
    (applyDelete ctx st v).overlays =
      st.overlays.map (fun ov =>
        { ov with drawn :=
            ov.drawn.filter (fun x => !(decide (x = v) && delHit ctx ov.index v)) }) ∧
      (applyDelete ctx st v).searchResults = st.searchResults := by
  unfold applyDelete addAnnotationE
  rw [if_pos hpre]
  cases hres : resolveNavigation ctx (.str (stripSearch v)) with
  | none =>
    dsimp only
    refine ⟨?_, rfl⟩
    symm
    refine (List.map_congr_left ?_).trans (List.map_id _)
    intro ov hov
    have hd : delHit ctx ov.index v = false := by
      simp [delHit, hres]
    simp [hd]
  | some r =>
    dsimp only
    cases hfind : getOverlayer st.overlays r.index with
    | none =>
      dsimp only
      have hnone : ∀ ov ∈ st.overlays, ov.index ≠ r.index := by
        intro ov hov
        have h2 := List.find?_eq_none.mp hfind ov hov
        simpa using h2
      refine ⟨?_, rfl⟩
      symm
      refine (List.map_congr_left ?_).trans (List.map_id _)
      intro ov hov
      have hd : delHit ctx ov.index v = false := by
        simp [delHit, hres, hpre]
        exact fun he => (hnone ov hov) he.symm
      simp [hd]
    | some ov0 =>
      dsimp only
      refine ⟨?_, rfl⟩
      rw [updateFirstOverlay_eq_map _ _ _ hnd]
      apply List.map_congr_left
      intro ov hov
      by_cases hio : ov.index = r.index
      · have hd : delHit ctx ov.index v = true := by
          simp [delHit, hres, hpre, hio]
        rw [if_pos hio]
        congr 1
        unfold overlayerRemove
        apply List.filter_congr
        intro x hx
        simp [hd, eq_comm]
      · have hd : delHit ctx ov.index v = false := by
          simp [delHit, hres, hpre]
          exact fun he => hio he.symm
        rw [if_neg hio]
        simp [hd]

/-- Folding the unawaited deletions of a list of search-prefixed values:
each overlay keeps exactly the drawn values not hit by any of them. -/
theorem foldl_applyDelete (ctx : ViewCtx) (L : List String) :
    ∀ st : AnnState, (∀ v ∈ L, jsStartsWith v SEARCH_PREFIX = true) →
      (st.overlays.map OverlaySt.index).Nodup →
      (L.foldl (applyDelete ctx) st).overlays =
        st.overlays.map (fun ov =>
          { ov with drawn := ov.drawn.filter (fun x => !(hitBy ctx L ov.index x)) }) ∧
        (L.foldl (applyDelete ctx) st).searchResults = st.searchResults := by
  induction L with
  | nil =>
    intro st _ _
    refine ⟨?_, rfl⟩
    symm
    refine (List.map_congr_left ?_).trans (List.map_id _)
    intro ov hov
    simp [hitBy]
  | cons v L2 ih =>
    intro st hall hnd
    have hv : jsStartsWith v SEARCH_PREFIX = true := hall v (by simp)
    have hstep := applyDelete_step ctx st v hv hnd
    have hidx : ((applyDelete ctx st v).overlays.map OverlaySt.index) =
        st.overlays.map OverlaySt.index := by
      rw [hstep.1, List.map_map]
      rfl
    have hnd2 : ((applyDelete ctx st v).overlays.map OverlaySt.index).Nodup := by
      rw [hidx]; exact hnd
    have hih := ih (applyDelete ctx st v) (fun w hw => hall w (by simp [hw])) hnd2
    rw [List.foldl_cons]
    refine ⟨?_, hih.2.trans hstep.2⟩
    rw [hih.1, hstep.1, List.map_map]
    apply List.map_congr_left
    intro ov hov
    simp only [Function.comp]
    congr 1
    rw [List.filter_filter]
    apply List.filter_congr
    intro x hx
    simp only [hitBy, List.any_cons, Bool.not_or, Bool.and_comm]

/-- C8: under the session invariants — live overlays have pairwise
distinct indices, every stored search item is search-prefixed, and every
search-prefixed value drawn on an overlay is stored in `#searchResults`
and resolves back to that overlay's index — `clearSearch` empties the
search registry and removes exactly the search-tagged entries from every
overlay, leaving persistent (non-prefixed) annotations in place; and
`search` starts with precisely this cleared overlay state. -/
theorem clearSearch_removes_search_overlays (ctx : ViewCtx) (st : AnnState)
    (hnd : (st.overlays.map OverlaySt.index).Nodup)
    (hstored : ∀ l ∈ st.searchResults, ∀ v ∈ l, jsStartsWith v SEARCH_PREFIX = true)
    (hcomp : ∀ ov ∈ st.overlays, ∀ x ∈ ov.drawn, jsStartsWith x SEARCH_PREFIX = true →
      x ∈ st.searchResults.flatten ∧ delHit ctx ov.index x = true) :
    (clearSearchV ctx st).searchResults = [] ∧
      (clearSearchV ctx st).overlays =
        st.overlays.map (fun ov =>
          { ov with drawn := ov.drawn.filter (fun x => !(jsStartsWith x SEARCH_PREFIX)) }) ∧
      (searchStart ctx st).overlays = (clearSearchV ctx st).overlays := by
  have hallpre : ∀ v ∈ st.searchResults.flatten, jsStartsWith v SEARCH_PREFIX = true := by
    intro v hv
    rcases List.mem_flatten.mp hv with ⟨l, hl, hvl⟩
    exact hstored l hl v hvl
  have hfold := foldl_applyDelete ctx st.searchResults.flatten st hallpre hnd
  refine ⟨rfl, ?_, rfl⟩
  show (st.searchResults.foldl (fun s l => l.foldl (applyDelete ctx) s) st).overlays = _
  rw [← List.foldl_flatten, hfold.1]
  apply List.map_congr_left
  intro ov hov
  congr 1
  apply List.filter_congr
  intro x hx
  by_cases hp : jsStartsWith x SEARCH_PREFIX = true
  · rcases hcomp ov hov x hx hp with ⟨hmem, hdel⟩
    have hhit : hitBy ctx st.searchResults.flatten ov.index x = true := by
      rw [hitBy, List.any_eq_true]
      exact ⟨x, hmem, by simp [hdel]⟩
    rw [hhit, hp]
  · have hfalse : jsStartsWith x SEARCH_PREFIX = false := by simpa using hp
    have hhit : hitBy ctx st.searchResults.flatten ov.index x = false := by
      rw [hitBy, List.any_eq_false]
      intro v hv
      by_cases hxv : x = v
      · subst hxv
        simp [delHit, hfalse]
      · simp [hxv]
    rw [hhit, hfalse]

/-- A concrete book context for the overlay witnesses: every string
resolves as a CFI through the book's resolver; "A" names section 0. -/
def ctxSearchW : ViewCtx :=
  { nSections := 1
    hasSectionProgress := false
    getSection := fun _ => .error ()
    isCFI := fun _ => true
    bookResolveCFI := some (fun s => if s = "A" then .ok { index := 0, anchor := none }
      else .error ())
    fakeResolveCFI := fun _ => .error ()
    resolveHref := fun _ => .error ()
    tocProgress := none }

/-- A live section-0 overlay showing one search hit and one persistent
annotation, with the hit stored in the search registry. -/
def annStateW : AnnState :=
  { overlays := [{ index := 0, drawn := ["foliate-search:A", "note1"] }]
    searchResults := [["foliate-search:A"]] }

/-- Witness for C8: on the concrete state, clearing search removes the
search hit, keeps the persistent annotation, and empties the registry. -/
theorem clearSearch_removes_search_overlays_witness :
    (clearSearchV ctxSearchW annStateW).searchResults = [] ∧
      (clearSearchV ctxSearchW annStateW).overlays =
        annStateW.overlays.map (fun ov =>
          { ov with drawn := ov.drawn.filter (fun x => !(jsStartsWith x SEARCH_PREFIX)) }) ∧
      (searchStart ctxSearchW annStateW).overlays =
        (clearSearchV ctxSearchW annStateW).overlays :=
  clearSearch_removes_search_overlays ctxSearchW annStateW (by decide) (by decide)
    (by decide)

/-- A book without the address-splitting (TOC) capability: view.js 238
creates neither `#sectionProgress` nor `#tocProgress`, so `tocProgress`
is `none`; hrefs resolve to section 0. -/
def ctxNoToc : ViewCtx :=
  { nSections := 3
    hasSectionProgress := false
    getSection := fun _ => .error ()
    isCFI := fun _ => false
    bookResolveCFI := none
    fakeResolveCFI := fun _ => .error ()
    resolveHref := fun v => match v with
      | .str _ => .ok { index := 0, anchor := none }
      | _ => .error ()
    tocProgress := none }

/-- The same book with the TOC capability present (every index labelled
"Chapter"). -/
def ctxWithToc : ViewCtx :=
  { ctxNoToc with tocProgress := some (fun _ => some "Chapter") }

/-- C9: with no live overlay for the resolved section, `addAnnotation` on
a persistent annotation returns `{index, label}` when the book has the
TOC capability, but *throws* (the async call rejects) on a book without
it: line 635 reads `this.#tocProgress.getProgress(index)` without the
optional chaining used at the other `#tocProgress` call sites (570, 738),
so the claimed label degradation never happens. -/
theorem addAnnotation_missing_toc_throws :
    addAnnotationE ctxNoToc { overlays := [], searchResults := [] } "hl-1" false =
        .error () ∧
      addAnnotationE ctxWithToc { overlays := [], searchResults := [] } "hl-1" false =
        .ok ({ overlays := [], searchResults := [] }, some (0, "Chapter")) :=
  ⟨rfl, rfl⟩

/-- An axis-aligned rectangle in viewport coordinates (a DOMRect). -/
structure Rect where
  left : ℚ
  right : ℚ
  top : ℚ
  bottom : ℚ
deriving DecidableEq

def Rect.width (r : Rect) : ℚ := r.right - r.left

def Rect.height (r : Rect) : ℚ := r.bottom - r.top

/-- The split detector's result `{visibleRatio, offScreenRatio}`. -/
structure SplitInfo where
  visibleRatio : ℚ
  offScreenRatio : ℚ
deriving DecidableEq

/-- The accumulators of the rect loop (view.js 357-360). -/
structure SplitAcc where
  totalArea : ℚ
  visibleArea : ℚ
  forwardArea : ℚ
  backwardArea : ℚ
deriving DecidableEq

/-- The inputs of `getElementSplitInfo(el, doc, renderer)` (view.js
326-425) as read from the DOM: presence of the element, of
`doc.defaultView` and of the renderer; the renderer's `scrolled` flag;
the element's client rects; presence of `defaultView.frameElement` and of
`renderer.getBoundingClientRect`; the frame's bounding rect; the
computed `writingMode` of the body; and the `dir="rtl"` attribute. -/
structure SplitEnv where
  hasEl : Bool
  hasDocView : Bool
  hasRenderer : Bool
  scrolled : Bool
  clientRects : List Rect
  hasFrameElement : Bool
  rendererRect : Option Rect
  frameRect : Rect
  writingMode : String
  rtl : Bool
deriving DecidableEq

/-- The intersection of the renderer's rect and the frame's rect
(view.js 341-346). -/
def viewportRectOf (rr fr : Rect) : Rect :=
  { left := max rr.left fr.left
    right := min rr.right fr.right
    top := max rr.top fr.top
    bottom := min rr.bottom fr.bottom }

/-- One iteration of the rect loop (view.js 362-405): accumulate total
area, viewport-overlap area, and — for rows that vertically overlap the
viewport — the forward- and backward-hidden widths times the vertical
overlap, with forward/backward swapped under `rtl`. -/
def accumRect (fr vp : Rect) (rtl : Bool) (acc : SplitAcc) (rect : Rect) : SplitAcc :=
  let area := rect.width * rect.height
  if area = 0 then acc else
  let totalArea := acc.totalArea + area
  let globalLeft := fr.left + rect.left
  let globalRight := fr.left + rect.right
  let globalTop := fr.top + rect.top
  let globalBottom := fr.top + rect.bottom
  let overlapLeft := max globalLeft vp.left
  let overlapRight := min globalRight vp.right
  let overlapTop := max globalTop vp.top
  let overlapBottom := min globalBottom vp.bottom
  let overlapWidth := max 0 (overlapRight - overlapLeft)
  let overlapHeight := max 0 (overlapBottom - overlapTop)
  let visibleArea :=
    if 0 < overlapWidth ∧ 0 < overlapHeight
    then acc.visibleArea + overlapWidth * overlapHeight
    else acc.visibleArea
  let verticalOverlap :=
    max 0 (min globalBottom vp.bottom - max globalTop vp.top)
  if verticalOverlap ≤ 0 then
    { totalArea := totalArea, visibleArea := visibleArea
      forwardArea := acc.forwardArea, backwardArea := acc.backwardArea }
  else
    let forwardHiddenWidth :=
      if rtl then max 0 (min rect.width (vp.left - globalLeft))
      else max 0 (min rect.width (globalRight - vp.right))
    let backwardHiddenWidth :=
      if rtl then max 0 (min rect.width (globalRight - vp.right))
      else max 0 (min rect.width (vp.left - globalLeft))
    let forwardArea :=
      if 0 < forwardHiddenWidth
      then acc.forwardArea + forwardHiddenWidth * verticalOverlap
      else acc.forwardArea
    let backwardArea :=
      if 0 < backwardHiddenWidth
      then acc.backwardArea + backwardHiddenWidth * verticalOverlap
      else acc.backwardArea
    { totalArea := totalArea, visibleArea := visibleArea
      forwardArea := forwardArea, backwardArea := backwardArea }

/-- The non-degenerate client rects (view.js 330-331). -/
def filteredRects (e : SplitEnv) : List Rect :=
  e.clientRects.filter (fun r => decide (0 < r.width) && decide (0 < r.height))

/-- The accumulated areas over all filtered rects. -/
def splitAreas (e : SplitEnv) (rr : Rect) : SplitAcc :=
  (filteredRects e).foldl (accumRect e.frameRect (viewportRectOf rr e.frameRect) e.rtl)
    { totalArea := 0, visibleArea := 0, forwardArea := 0, backwardArea := 0 }

/-- `progressionRatio` (view.js 415): the backward ratio under `rtl`,
else the forward ratio. -/
def progressionRatioOf (e : SplitEnv) (rr : Rect) : ℚ :=
  if e.rtl then (splitAreas e rr).backwardArea / (splitAreas e rr).totalArea
  else (splitAreas e rr).forwardArea / (splitAreas e rr).totalArea

/-- `oppositeRatio` (view.js 416): the complementary side. -/
def oppositeRatioOf (e : SplitEnv) (rr : Rect) : ℚ :=
  if e.rtl then (splitAreas e rr).forwardArea / (splitAreas e rr).totalArea
  else (splitAreas e rr).backwardArea / (splitAreas e rr).totalArea

/-- `getElementSplitInfo` (view.js 326-425): guards, geometry
accumulation and the threshold decision. -/
def getElementSplitInfo (e : SplitEnv) : Option SplitInfo :=
  if e.hasEl = false ∨ e.hasDocView = false ∨ e.hasRenderer = false then none
  else if e.scrolled = true then none
  else if filteredRects e = [] then none
  else
    match e.rendererRect with
    | none => none
    | some rr =>
      if e.hasFrameElement = false ∨ rr.width = 0 ∨ rr.height = 0 then none
      else
        let vp := viewportRectOf rr e.frameRect
        if vp.right ≤ vp.left ∨ vp.bottom ≤ vp.top then none
        else if jsStartsWith e.writingMode "vertical" = true then none
        else
          let acc := splitAreas e rr
          if acc.totalArea = 0 ∨ acc.visibleArea = 0 then none
          else if 98/100 ≤ acc.visibleArea / acc.totalArea then none
          else if progressionRatioOf e rr < 1/10 then none
          else if progressionRatioOf e rr ≤ oppositeRatioOf e rr then none
          else some { visibleRatio := acc.visibleArea / acc.totalArea
                      offScreenRatio := progressionRatioOf e rr }

/-- C1: with the guards passed (element, document view, renderer and
frame present, paginated mode, non-degenerate renderer rect and
viewport, horizontal writing) and nonzero total and visible areas,
split detection returns "no split" exactly when
`visibleArea/totalArea ≥ 0.98`, or `progressionRatio < 0.10`, or
`progressionRatio ≤ oppositeRatio`; otherwise it returns
`{visibleRatio = visibleArea/totalArea, offScreenRatio = progressionRatio}`
(forward and backward swapped under right-to-left direction). -/
theorem getElementSplitInfo_threshold_iff (e : SplitEnv) (rr : Rect)
    (h1 : e.hasEl = true) (h2 : e.hasDocView = true) (h3 : e.hasRenderer = true)
    (h4 : e.scrolled = false) (h5 : e.rendererRect = some rr)
    (h6 : e.hasFrameElement = true) (h7 : rr.width ≠ 0) (h8 : rr.height ≠ 0)
    (h9 : (viewportRectOf rr e.frameRect).left < (viewportRectOf rr e.frameRect).right)
    (h10 : (viewportRectOf rr e.frameRect).top < (viewportRectOf rr e.frameRect).bottom)
    (h11 : jsStartsWith e.writingMode "vertical" = false)
    (hta : (splitAreas e rr).totalArea ≠ 0)
    (hva : (splitAreas e rr).visibleArea ≠ 0) :
    (getElementSplitInfo e = none ↔
      (98/100 ≤ (splitAreas e rr).visibleArea / (splitAreas e rr).totalArea ∨
        progressionRatioOf e rr < 1/10 ∨
        progressionRatioOf e rr ≤ oppositeRatioOf e rr)) ∧
      (getElementSplitInfo e = some
          { visibleRatio := (splitAreas e rr).visibleArea / (splitAreas e rr).totalArea
            offScreenRatio := progressionRatioOf e rr } ↔
        ¬(98/100 ≤ (splitAreas e rr).visibleArea / (splitAreas e rr).totalArea ∨
          progressionRatioOf e rr < 1/10 ∨
          progressionRatioOf e rr ≤ oppositeRatioOf e rr)) := by
  have hemp : ¬ (filteredRects e = []) := by
    intro hnil
    apply hta
    simp [splitAreas, hnil]
  have key : getElementSplitInfo e =
      (if 98/100 ≤ (splitAreas e rr).visibleArea / (splitAreas e rr).totalArea then none
       else if progressionRatioOf e rr < 1/10 then none
       else if progressionRatioOf e rr ≤ oppositeRatioOf e rr then none
       else some { visibleRatio := (splitAreas e rr).visibleArea / (splitAreas e rr).totalArea
                   offScreenRatio := progressionRatioOf e rr }) := by
    unfold getElementSplitInfo
    rw [h5]
    dsimp only
    rw [if_neg (by simp [h1, h2, h3]), if_neg (by simp [h4]), if_neg hemp,
      if_neg (by simp [h6, h7, h8]),
      if_neg (by simp only [not_or, not_le]; exact ⟨h9, h10⟩),
      if_neg (by simp [h11]), if_neg (by simp [hta, hva])]
  rw [key]
  constructor
  · constructor
    · intro hn
      by_contra hcon
      rw [if_neg (by tauto), if_neg (by tauto), if_neg (by tauto)] at hn
      exact Option.some_ne_none _ hn
    · intro hor
      rcases hor with hA | hB | hC
      · rw [if_pos hA]
      · by_cases hA : 98/100 ≤ (splitAreas e rr).visibleArea / (splitAreas e rr).totalArea
        · rw [if_pos hA]
        · rw [if_neg hA, if_pos hB]
      · by_cases hA : 98/100 ≤ (splitAreas e rr).visibleArea / (splitAreas e rr).totalArea
        · rw [if_pos hA]
        · rw [if_neg hA]
          by_cases hB : progressionRatioOf e rr < 1/10
          · rw [if_pos hB]
          · rw [if_neg hB, if_pos hC]
  · constructor
    · intro hs
      intro hor
      rcases hor with hA | hB | hC
      · rw [if_pos hA] at hs
        exact Option.some_ne_none _ hs.symm
      · by_cases hA : 98/100 ≤ (splitAreas e rr).visibleArea / (splitAreas e rr).totalArea
        · rw [if_pos hA] at hs
          exact Option.some_ne_none _ hs.symm
        · rw [if_neg hA, if_pos hB] at hs
          exact Option.some_ne_none _ hs.symm
      · by_cases hA : 98/100 ≤ (splitAreas e rr).visibleArea / (splitAreas e rr).totalArea
        · rw [if_pos hA] at hs
          exact Option.some_ne_none _ hs.symm
        · rw [if_neg hA] at hs
          by_cases hB : progressionRatioOf e rr < 1/10
          · rw [if_pos hB] at hs
            exact Option.some_ne_none _ hs.symm
          · rw [if_neg hB, if_pos hC] at hs
            exact Option.some_ne_none _ hs.symm
    · intro hcon
      rw [if_neg (by tauto), if_neg (by tauto), if_neg (by tauto)]

/-- A concrete environment: one 100×10 sentence rect, 30% inside a
100×100 viewport and 70% overflowing past the right (forward) edge,
left-to-right, horizontal writing. -/
def splitEnvW : SplitEnv :=
  { hasEl := true
    hasDocView := true
    hasRenderer := true
    scrolled := false
    clientRects := [{ left := 70, right := 170, top := 0, bottom := 10 }]
    hasFrameElement := true
    rendererRect := some { left := 0, right := 100, top := 0, bottom := 100 }
    frameRect := { left := 0, right := 100, top := 0, bottom := 100 }
    writingMode := "horizontal-tb"
    rtl := false }

/-- Witness for C1: on the concrete environment the detector reports a
split with `visibleRatio = 0.30` and `offScreenRatio = 0.70`. -/
theorem getElementSplitInfo_threshold_iff_witness :
    getElementSplitInfo splitEnvW =
      some { visibleRatio := 3/10, offScreenRatio := 7/10 } := by
  have hacc : splitAreas splitEnvW { left := 0, right := 100, top := 0, bottom := 100 } =
      { totalArea := 1000, visibleArea := 300, forwardArea := 700, backwardArea := 0 } := by
    norm_num [splitAreas, filteredRects, accumRect, viewportRectOf, splitEnvW,
      Rect.width, Rect.height, max_def, min_def]
  have hcond : ¬(98/100 ≤ (splitAreas splitEnvW
        { left := 0, right := 100, top := 0, bottom := 100 }).visibleArea /
          (splitAreas splitEnvW { left := 0, right := 100, top := 0, bottom := 100 }).totalArea ∨
      progressionRatioOf splitEnvW { left := 0, right := 100, top := 0, bottom := 100 } < 1/10 ∨
      progressionRatioOf splitEnvW { left := 0, right := 100, top := 0, bottom := 100 } ≤
        oppositeRatioOf splitEnvW { left := 0, right := 100, top := 0, bottom := 100 }) := by
    rw [progressionRatioOf, oppositeRatioOf, hacc]
    norm_num [splitEnvW]
  have h := (getElementSplitInfo_threshold_iff splitEnvW
      { left := 0, right := 100, top := 0, bottom := 100 }
      rfl rfl rfl rfl rfl rfl
      (by norm_num [Rect.width]) (by norm_num [Rect.height])
      (by norm_num [viewportRectOf, splitEnvW]) (by norm_num [viewportRectOf, splitEnvW])
      (by decide)
      (by rw [hacc]; norm_num) (by rw [hacc]; norm_num)).2.mpr hcond
  refine h.trans ?_
  rw [progressionRatioOf, hacc]
  norm_num [splitEnvW]
